import Mathlib

/-!
Verification of the Kibana data-view reconciliation engine
(`src/iac/kibana/src/api/dataviews.py`).

The embedding translates the Python source into Lean:

* `DataViewSpec.as_payload` (payload shaping and title slugification),
* `delete` (status-code handling of the DELETE endpoint),
* `sync` (the reconciler), modelled over an oracle `Remote` that supplies
  the observed resource list and the outcome of each HTTP call; fallible
  calls return `Except RemoteErr`.

Python truthiness of optional strings (`None` and `""` are falsy) is
modelled by `optTruthy` / `truthyId`.  Python dict access `d.get(k)` on
possibly-missing keys is modelled with `Option`.
-/

instance {ε α : Type} [DecidableEq ε] [DecidableEq α] : DecidableEq (Except ε α) := by
  intro a b
  cases a <;> cases b
  case error.error e₁ e₂ =>
    exact if h : e₁ = e₂ then .isTrue (by rw [h]) else .isFalse (by simpa using h)
  case error.ok e₁ a₂ => exact .isFalse (by simp)
  case ok.error a₁ e₂ => exact .isFalse (by simp)
  case ok.ok a₁ a₂ =>
    exact if h : a₁ = a₂ then .isTrue (by rw [h]) else .isFalse (by simpa using h)

/-- Error raised for a non-success HTTP response (`httpx.HTTPStatusError`):
`status` is the response status code, `body` abstracts the message text
(`str(e)` in the source is modelled as the `body` field). -/
structure RemoteErr where
  status : Nat
  body : String
deriving DecidableEq, Repr

/-- Python truthiness of an optional string: `None` and `""` are falsy. -/
def optTruthy : Option String → Bool
  | none => false
  | some s => s != ""

/-- Normalize an optional string to `none` when it is Python-falsy, mirroring
`if x := d.get("id")` walrus-tests in the source. -/
def truthyId : Option String → Option String
  | none => none
  | some s => if s == "" then none else some s

/-- Python truthiness of the optional `fieldFormats` mapping: `None` and an
empty mapping are falsy. -/
def ffTruthy : Option (List (String × String)) → Bool
  | none => false
  | some l => !l.isEmpty

/-- `DataViewSpec` dataclass (dataviews.py lines 10-17).  `fieldFormats`
values are abstracted to strings (the source never inspects them). -/
structure DataViewSpec where
  name : String
  title : Option String := none
  timeFieldName : Option String := none
  allowNoIndex : Bool := false
  fieldFormats : Option (List (String × String)) := none
  refresh_fields : Bool := false
deriving DecidableEq, Repr

/-- A word character for the regex `\W` in `re.sub(r"\W+", "_", ...)`:
`[A-Za-z0-9_]` (the ASCII fragment of Python `\w`; all inputs relevant to
the claims are ASCII). -/
def isWordChar (c : Char) : Bool := c.isAlphanum || c == '_'

/-- Models `re.sub(r"\W+", "_", s)`: each maximal run of non-word characters
becomes a single underscore.  The flag records whether the previous
character belonged to a non-word run. -/
def replaceNonWordRuns : List Char → Bool → List Char
  | [], _ => []
  | c :: cs, inRun =>
    if isWordChar c then c :: replaceNonWordRuns cs false
    else if inRun then replaceNonWordRuns cs true
    else '_' :: replaceNonWordRuns cs true

/-- Models `re.sub(r"_+", "_", s)`: collapses each run of underscores to a
single underscore.  The flag records whether the previous character was an
underscore. -/
def collapseUnderscoreRuns : List Char → Bool → List Char
  | [], _ => []
  | c :: cs, prev =>
    if c == '_' then
      if prev then collapseUnderscoreRuns cs true
      else '_' :: collapseUnderscoreRuns cs true
    else c :: collapseUnderscoreRuns cs false

/-- Models `.strip("_")`: removes leading and trailing underscores. -/
def stripUnderscores (l : List Char) : List Char :=
  ((l.dropWhile (fun c => c == '_')).reverse.dropWhile (fun c => c == '_')).reverse

/-- The slug computed in `as_payload` (dataviews.py lines 24-25):
`slug = re.sub(r"\W+", "_", name.lower()); slug = re.sub(r"_+", "_", slug).strip("_")`.
`Char.toLower` models `str.lower` on the ASCII range. -/
def slugify (name : String) : String :=
  String.mk (stripUnderscores
    (collapseUnderscoreRuns (replaceNonWordRuns (name.data.map Char.toLower) false) false))

/-- The payload dict built by `as_payload`.  A key the source leaves out of
the dict is `none` (`timeFieldName`, `fieldFormats`) or `false`
(`allowNoIndex`, whose key is present exactly when the flag is set);
`title` is always present but its value may be Python `None` (`none`). -/
structure Payload where
  name : String
  title : Option String
  timeFieldName : Option String
  allowNoIndex : Bool
  fieldFormats : Option (List (String × String))
deriving DecidableEq, Repr

/-- `DataViewSpec.as_payload` (dataviews.py lines 19-37). -/
def DataViewSpec.as_payload (s : DataViewSpec) : Payload :=
  let derived_title : Option String :=
    if !optTruthy s.title && s.name != "" then
      let slug := slugify s.name
      some (if slug == "" then s.name else slug)
    else none
  { name := s.name
    title := if optTruthy s.title then s.title else derived_title
    timeFieldName := if optTruthy s.timeFieldName then s.timeFieldName else none
    allowNoIndex := s.allowNoIndex
    fieldFormats := if ffTruthy s.fieldFormats then s.fieldFormats else none }

/-- `httpx.Response.is_success`: a 2xx status. -/
def is_success (status : Nat) : Bool := 200 ≤ status && status ≤ 299

/-- `httpx.Response.raise_for_status`: returns the response when the status
is 2xx and raises `HTTPStatusError` for any other status. -/
def raiseForStatus (status : Nat) : Except RemoteErr Unit :=
  if is_success status then .ok () else .error ⟨status, "HTTPStatusError"⟩

/-- `DataViewsAPI.delete` (dataviews.py lines 88-91), as a function of the
HTTP response status: statuses 200/202/204/404 return immediately, any
other status goes through `raise_for_status`. -/
def delete (status : Nat) : Except RemoteErr Unit :=
  if status == 200 || status == 202 || status == 204 || status == 404 then .ok ()
  else raiseForStatus status

/-- One element of the `list_views()` result: a dict whose `"name"` and
`"id"` keys may be absent (`dv.get("name")`, `dv.get("id")`). -/
structure ObservedView where
  name : Option String
  id : Option String
deriving DecidableEq, Repr

/-- Assignment `m[k] = v` on an insertion-ordered dict (Python `dict`):
an existing key keeps its position and gets the new value, a new key is
appended. -/
def dictInsert (m : List (Option String × ObservedView)) (k : Option String)
    (v : ObservedView) : List (Option String × ObservedView) :=
  if m.any (fun p => p.1 == k) then m.map (fun p => if p.1 == k then (k, v) else p)
  else m ++ [(k, v)]

/-- `existing_by_name = {dv.get("name"): dv for dv in self.list_views() ...}`
(dataviews.py line 105): index the observed views by name, last write wins. -/
def buildIndex (views : List ObservedView) : List (Option String × ObservedView) :=
  views.foldl (fun m dv => dictInsert m dv.name dv) []

/-- `spec.name in existing_by_name`. -/
def indexHasName (idx : List (Option String × ObservedView)) (n : String) : Bool :=
  idx.any (fun p => p.1 == some n)

/-- The skip test of the upsert loop (dataviews.py line 115):
`not spec.title and spec.name not in existing_by_name`. -/
def skipCond (idx : List (Option String × ObservedView)) (spec : DataViewSpec) : Bool :=
  !optTruthy spec.title && !indexHasName idx spec.name

/-- A JSON response body, abstracted to the only part the reconciler reads:
`resp.get("data_view", {}).get("id")` (`none` when the response is not a
dict or a key is missing), plus a tag distinguishing response bodies. -/
structure RawResp where
  dataViewId : Option String
  tag : Nat
deriving DecidableEq, Repr

/-- An element of the `deleted` report list: `{"id": view_id, "name": name}`
(dataviews.py line 133). -/
structure DeletedEntry where
  id : String
  name : String
deriving DecidableEq, Repr

/-- An element of the `skipped` report list.  The source appends exactly two
shapes of dict: `{"reason": "missing_title", "name": ...}` and
`{"reason": "set_default_failed", "error": ...}`; absent keys are `none`. -/
structure SkipEntry where
  reason : String
  name : Option String
  error : Option String
deriving DecidableEq, Repr

/-- The summary dict returned by `sync` (dataviews.py line 142). -/
structure SyncReport where
  created : List RawResp
  updated : List RawResp
  deleted : List DeletedEntry
  skipped : List SkipEntry
deriving DecidableEq, Repr

/-- The mutable locals of the upsert loop (dataviews.py lines 108-113). -/
structure LoopState where
  created : List RawResp
  updated : List RawResp
  skipped : List SkipEntry
  firstViewId : Option String
deriving DecidableEq, Repr

def initLoopState : LoopState := ⟨[], [], [], none⟩

/-- The remote side of one `sync` run, as an oracle: the observed resource
list returned by `list_views()` and the outcome of every HTTP call `sync`
may issue.  `createResp i` / `updateResp i` are the responses to the
create/update calls for the spec at position `i` of `desired`;
`deleteResp` is keyed by the view id passed to `delete`; `setDefaultResp`
by the id passed to `set_default`.  An `.error` outcome models a raised
`HTTPStatusError` / transport error. -/
structure Remote where
  views : List ObservedView
  createResp : Nat → Except RemoteErr RawResp
  updateResp : Nat → Except RemoteErr RawResp
  deleteResp : String → Except RemoteErr Unit
  setDefaultResp : String → Except RemoteErr RawResp

/-- One iteration of the upsert loop (dataviews.py lines 114-128) for the
spec at position `i`, acting on the loop state `st`. -/
def upsertStep (r : Remote) (idx : List (Option String × ObservedView)) (i : Nat)
    (spec : DataViewSpec) (st : LoopState) : Except RemoteErr LoopState :=
  if skipCond idx spec then
    .ok { st with skipped := st.skipped ++ [⟨"missing_title", some spec.name, none⟩] }
  else
    match r.createResp i with
    | .error e => .error e
    | .ok resp =>
      match truthyId resp.dataViewId with
      | some view_id =>
        match r.updateResp i with
        | .error e => .error e
        | .ok u =>
          .ok { st with
                updated := st.updated ++ [u]
                firstViewId := if st.firstViewId.isNone then some view_id else st.firstViewId }
      | none =>
        .ok { st with
              created := st.created ++ [resp]
              firstViewId :=
                if st.firstViewId.isNone then
                  match truthyId resp.dataViewId with
                  | some maybe_id => some maybe_id
                  | none => st.firstViewId
                else st.firstViewId }

/-- The upsert loop `for spec in desired` (dataviews.py lines 114-128),
starting at position `i`. -/
def upsertAll (r : Remote) (idx : List (Option String × ObservedView)) :
    Nat → List DataViewSpec → LoopState → Except RemoteErr LoopState
  | _, [], st => .ok st
  | i, spec :: rest, st =>
    match upsertStep r idx i spec st with
    | .error e => .error e
    | .ok st₂ => upsertAll r idx (i + 1) rest st₂

/-- One iteration of the deletion loop (dataviews.py lines 130-133) on an
index entry: `if name and name not in desired_names and (view_id := dv.get("id"))`. -/
def deleteStep (r : Remote) (desiredNames : List String)
    (entry : Option String × ObservedView) (acc : List DeletedEntry) :
    Except RemoteErr (List DeletedEntry) :=
  match entry.1 with
  | some name =>
    if name != "" && !desiredNames.contains name then
      match truthyId entry.2.id with
      | some view_id =>
        match r.deleteResp view_id with
        | .error e => .error e
        | .ok _ => .ok (acc ++ [⟨view_id, name⟩])
      | none => .ok acc
    else .ok acc
  | none => .ok acc

/-- The deletion loop `for name, dv in existing_by_name.items()`
(dataviews.py lines 130-133). -/
def deleteAll (r : Remote) (desiredNames : List String) :
    List (Option String × ObservedView) → List DeletedEntry →
    Except RemoteErr (List DeletedEntry)
  | [], acc => .ok acc
  | entry :: rest, acc =>
    match deleteStep r desiredNames entry acc with
    | .error e => .error e
    | .ok acc₂ => deleteAll r desiredNames rest acc₂

/-- `DataViewsAPI.sync` (dataviews.py lines 99-142) over the oracle `r`.
`desired_names = {d.name for d in desired}` is modelled as the list of
names (membership in the list coincides with membership in the set).
The locals `existing_by_name` and `desired_names`, computed once in the
source, are written out at each use site; both are pure, so this is the
same function. -/
def sync (r : Remote) (desired : List DataViewSpec) : Except RemoteErr SyncReport :=
  match upsertAll r (buildIndex r.views) 0 desired initLoopState with
  | .error e => .error e
  | .ok st =>
    match deleteAll r (desired.map DataViewSpec.name) (buildIndex r.views) [] with
    | .error e => .error e
    | .ok deleted =>
      match truthyId st.firstViewId with
      | some fid =>
        match r.setDefaultResp fid with
        | .ok _ => .ok ⟨st.created, st.updated, deleted, st.skipped⟩
        | .error e =>
          .ok ⟨st.created, st.updated, deleted,
               st.skipped ++ [⟨"set_default_failed", none, some e.body⟩]⟩
      | none => .ok ⟨st.created, st.updated, deleted, st.skipped⟩

/-- The id `sync` passes to `set_default` (`first_view_id` after the upsert
loop, filtered by the truthiness test `if first_view_id:` on line 136);
`.ok none` means `set_default` is not called. -/
def defaultCandidate (r : Remote) (desired : List DataViewSpec) :
    Except RemoteErr (Option String) :=
  match upsertAll r (buildIndex r.views) 0 desired initLoopState with
  | .error e => .error e
  | .ok st => .ok (truthyId st.firstViewId)

/-- Specification function used in theorem statements: the deletion loop's
selection on one index entry — `some {id, name}` exactly when the entry has
a truthy name absent from the desired names and a truthy id (the test on
dataviews.py line 131). -/
def delSelect (desiredNames : List String) (entry : Option String × ObservedView) :
    Option DeletedEntry :=
  match entry.1 with
  | some name =>
    if name != "" && !desiredNames.contains name then
      match truthyId entry.2.id with
      | some view_id => some ⟨view_id, name⟩
      | none => none
    else none
  | none => none

/-- Specification function used in theorem statements: the id of the first
desired item (input order, starting at position `i`) that is not skipped
and whose create response carries a truthy `data_view.id`.  (The value is
only meaningful on runs where the upsert loop finishes without error.) -/
def expectedCandidate (r : Remote) (idx : List (Option String × ObservedView)) :
    Nat → List DataViewSpec → Option String
  | _, [] => none
  | i, spec :: rest =>
    if skipCond idx spec then expectedCandidate r idx (i + 1) rest
    else
      match r.createResp i with
      | .error _ => none
      | .ok resp =>
        match truthyId resp.dataViewId with
        | some view_id => some view_id
        | none => expectedCandidate r idx (i + 1) rest

/-! ### Idealized remote service (for the idempotence property)

The remote collection itself is an external collaborator, not code of this
repository (spec §6: "Remote API contract (external collaborator, not
reimplemented)").  To state idempotence of `sync` it is modelled from the
spec as a stateful server. -/

/-- A resource held by the remote service: a remote-assigned opaque id and
the resource name (spec §3, `ObservedResource`). -/
structure SView where
  id : String
  name : String
deriving DecidableEq, Repr

/-- Modelled from the spec: the remote collection state — the resources it
holds plus a counter from which fresh opaque ids are minted. -/
structure ServerState where
  views : List SView
  counter : Nat
deriving DecidableEq, Repr

/-- Fresh opaque ids minted by the modelled server; injective and never the
empty string. -/
def mkId (n : Nat) : String := String.mk ('i' :: List.replicate n 'x')

/-- Modelled from the spec: `create(spec, override=true)` "is an upsert: the
remote service replaces any existing resource with the same identity in
place" (spec §4.2 step 2b; identity is `name`, spec §3), returning the
resource with its id; a never-seen name is assigned a fresh opaque id. -/
def createS (st : ServerState) (name : String) : ServerState × String :=
  match st.views.find? (fun v => v.name == name) with
  | some v => (st, v.id)
  | none =>
    let fid := mkId st.counter
    ({ views := st.views ++ [⟨fid, name⟩], counter := st.counter + 1 }, fid)

/-- Modelled from the spec: `delete(id)` removes the resource with that id
from the collection (idempotent against "already gone", spec §4.1). -/
def deleteS (st : ServerState) (view_id : String) : ServerState :=
  { st with views := st.views.filter (fun v => v.id != view_id) }

/-- The `list_views()` result the reconciler observes on the modelled
server: each resource as a dict with `"name"` and `"id"` keys. -/
def observe (st : ServerState) : List ObservedView :=
  st.views.map (fun v => ⟨some v.name, some v.id⟩)

/-- The upsert loop of `sync` (dataviews.py lines 114-128) run against the
modelled server: identical control flow to `upsertAll`, with the oracle
responses replaced by the server semantics (`create` returns the upserted
resource's id; `update` succeeds and returns the resource). -/
def upsertAllS (idx : List (Option String × ObservedView)) :
    Nat → List DataViewSpec → ServerState → LoopState → ServerState × LoopState
  | _, [], st, ls => (st, ls)
  | i, spec :: rest, st, ls =>
    if skipCond idx spec then
      upsertAllS idx (i + 1) rest st
        { ls with skipped := ls.skipped ++ [⟨"missing_title", some spec.name, none⟩] }
    else
      let c := createS st spec.name
      let resp : RawResp := ⟨some c.2, 0⟩
      match truthyId resp.dataViewId with
      | some view_id =>
        upsertAllS idx (i + 1) rest c.1
          { ls with
            updated := ls.updated ++ [⟨some view_id, 0⟩]
            firstViewId := if ls.firstViewId.isNone then some view_id else ls.firstViewId }
      | none =>
        upsertAllS idx (i + 1) rest c.1
          { ls with
            created := ls.created ++ [resp]
            firstViewId :=
              if ls.firstViewId.isNone then
                match truthyId resp.dataViewId with
                | some maybe_id => some maybe_id
                | none => ls.firstViewId
              else ls.firstViewId }

/-- The deletion loop of `sync` (dataviews.py lines 130-133) run against the
modelled server. -/
def deleteAllS (desiredNames : List String) :
    List (Option String × ObservedView) → ServerState → List DeletedEntry →
    ServerState × List DeletedEntry
  | [], st, acc => (st, acc)
  | entry :: rest, st, acc =>
    match entry.1 with
    | some name =>
      if name != "" && !desiredNames.contains name then
        match truthyId entry.2.id with
        | some view_id =>
          deleteAllS desiredNames rest (deleteS st view_id) (acc ++ [⟨view_id, name⟩])
        | none => deleteAllS desiredNames rest st acc
      else deleteAllS desiredNames rest st acc
    | none => deleteAllS desiredNames rest st acc

/-- `DataViewsAPI.sync` (dataviews.py lines 99-142) run against the modelled
server, returning the new server state and the report.  `set_default` on
the modelled server succeeds and does not change the collection. -/
def syncS (st : ServerState) (desired : List DataViewSpec) : ServerState × SyncReport :=
  ((deleteAllS (desired.map DataViewSpec.name) (buildIndex (observe st))
      (upsertAllS (buildIndex (observe st)) 0 desired st initLoopState).1 []).1,
   ⟨(upsertAllS (buildIndex (observe st)) 0 desired st initLoopState).2.created,
    (upsertAllS (buildIndex (observe st)) 0 desired st initLoopState).2.updated,
    (deleteAllS (desired.map DataViewSpec.name) (buildIndex (observe st))
      (upsertAllS (buildIndex (observe st)) 0 desired st initLoopState).1 []).2,
    (upsertAllS (buildIndex (observe st)) 0 desired st initLoopState).2.skipped⟩)

/-- The default candidate (`first_view_id` filtered by the line-136
truthiness test) of a `sync` run against the modelled server. -/
def candidateS (st : ServerState) (desired : List DataViewSpec) : Option String :=
  truthyId (upsertAllS (buildIndex (observe st)) 0 desired st initLoopState).2.firstViewId

/-- Specification function used in theorem statements: the server-state
evolution of the upsert loop (each non-skipped spec upserts its name). -/
def upsertServer (idx : List (Option String × ObservedView)) :
    List DataViewSpec → ServerState → ServerState
  | [], st => st
  | spec :: rest, st =>
    if skipCond idx spec then upsertServer idx rest st
    else upsertServer idx rest (createS st spec.name).1

/-- Specification function used in theorem statements: the default
candidate of an upsert-loop run against the modelled server, computed
directly — the id of the first non-skipped spec whose create call returns
a truthy id, threading the server state. -/
def expectedCandidateS (idx : List (Option String × ObservedView)) :
    List DataViewSpec → ServerState → Option String
  | [], _ => none
  | spec :: rest, st =>
    if skipCond idx spec then expectedCandidateS idx rest st
    else
      let c := createS st spec.name
      if c.2 == "" then expectedCandidateS idx rest c.1 else some c.2

/-- Well-formedness of a remote collection state: consistent (no duplicate
names — spec §4.2 step 1 "remote is assumed consistent"), ids truthy,
distinct, and disjoint from all ids the server may still mint. -/
def WFState (st : ServerState) : Prop :=
  (∀ v ∈ st.views, v.id ≠ "") ∧
  (st.views.map SView.name).Nodup ∧
  (st.views.map SView.id).Nodup ∧
  (∀ n, st.counter ≤ n → ∀ v ∈ st.views, v.id ≠ mkId n)

/-- The index entry the reconciler sees for a server resource. -/
def entryOf (v : SView) : Option String × ObservedView :=
  (some v.name, ⟨some v.name, some v.id⟩)

/-- The deletion test of dataviews.py line 131 on a server resource with
both keys present: truthy name, name absent from desired, truthy id. -/
def delCond (desiredNames : List String) (v : SView) : Bool :=
  v.name != "" && !desiredNames.contains v.name && v.id != ""

/-! ### Concrete fixtures for witnesses and counterexamples -/

/-- A remote on which every HTTP call fails with a 500. -/
def errRemote : Remote :=
  { views := []
    createResp := fun _ => .error ⟨500, "boom"⟩
    updateResp := fun _ => .error ⟨500, "boom"⟩
    deleteResp := fun _ => .error ⟨500, "boom"⟩
    setDefaultResp := fun _ => .error ⟨500, "boom"⟩ }

/-- A remote with no observed views whose create response for the first
spec carries no `data_view.id` (so it is recorded under `created`) while
the second spec's create response carries id `"idB"`. -/
def rFirstCreated : Remote :=
  { views := []
    createResp := fun i => if i == 0 then .ok ⟨none, 10⟩ else .ok ⟨some "idB", 11⟩
    updateResp := fun _ => .ok ⟨some "idB", 12⟩
    deleteResp := fun _ => .ok ()
    setDefaultResp := fun _ => .ok ⟨none, 13⟩ }

/-- A remote observing one resource named `"ghost"` that has no `"id"` key;
all calls succeed. -/
def rGhost : Remote :=
  { views := [⟨some "ghost", none⟩]
    createResp := fun _ => .ok ⟨some "z", 0⟩
    updateResp := fun _ => .ok ⟨some "z", 1⟩
    deleteResp := fun _ => .ok ()
    setDefaultResp := fun _ => .ok ⟨none, 2⟩ }

/-- A remote on which CRUD succeeds but `set_default` fails with a 500. -/
def rSetDefFail : Remote :=
  { views := []
    createResp := fun _ => .ok ⟨some "idA", 0⟩
    updateResp := fun _ => .ok ⟨some "idA", 1⟩
    deleteResp := fun _ => .ok ()
    setDefaultResp := fun _ => .error ⟨500, "boom"⟩ }

/-- A remote observing one deletable resource (`"old"`, id `"o1"`) and one
resource without an `"id"` key; all calls succeed. -/
def rOld : Remote :=
  { views := [⟨some "old", some "o1"⟩, ⟨some "ghost", none⟩]
    createResp := fun _ => .ok ⟨some "z", 0⟩
    updateResp := fun _ => .ok ⟨some "z", 1⟩
    deleteResp := fun _ => .ok ()
    setDefaultResp := fun _ => .ok ⟨none, 2⟩ }

def specA : DataViewSpec := ⟨"a", some "t", none, false, none, false⟩

def specB : DataViewSpec := ⟨"b", some "t", none, false, none, false⟩

def specNoTitle : DataViewSpec := ⟨"n", none, none, false, none, false⟩

/-- Desired list exhibiting the duplicate-name scenario: the spec named
`"x"` without a title appears before a titled spec of the same name. -/
def desiredDup : List DataViewSpec :=
  [⟨"x", none, none, false, none, false⟩,
   ⟨"y", some "t", none, false, none, false⟩,
   ⟨"x", some "t2", none, false, none, false⟩]

example : slugify "Kibana Sample Data eCommerce" = "kibana_sample_data_ecommerce" := by decide
example : slugify "!!!" = "" := by decide
example : (DataViewSpec.as_payload ⟨"!!!", none, none, false, none, false⟩).title
    = some "!!!" := by decide
example : delete 201 = .ok () := by decide
example : delete 301 = .error ⟨301, "HTTPStatusError"⟩ := by decide

example : sync rFirstCreated [specA, specB]
    = .ok ⟨[⟨none, 10⟩], [⟨some "idB", 12⟩], [], []⟩ := by decide
example : defaultCandidate rFirstCreated [specA, specB] = .ok (some "idB") := by decide
example : sync rGhost [] = .ok ⟨[], [], [], []⟩ := by decide
example : sync rSetDefFail [specA]
    = .ok ⟨[], [⟨some "idA", 1⟩], [], [⟨"set_default_failed", none, some "boom"⟩]⟩ := by decide
example : candidateS ⟨[], 0⟩ desiredDup = some "i" := by decide
example : candidateS (syncS ⟨[], 0⟩ desiredDup).1 desiredDup = some "ix" := by decide
example : (syncS (syncS ⟨[], 0⟩ desiredDup).1 desiredDup).2.created = [] := by decide
example : (syncS (syncS ⟨[], 0⟩ desiredDup).1 desiredDup).2.deleted = [] := by decide
example : sync errRemote [specA] = .error ⟨500, "boom"⟩ := by decide

/-! ## Helper lemmas -/

theorem truthyId_eq_some {o : Option String} {s : String} (h : truthyId o = some s) :
    o = some s ∧ s ≠ "" := by
  cases o with
  | none => simp [truthyId] at h
  | some t =>
    by_cases ht : t = ""
    · simp [truthyId, ht] at h
    · simp [truthyId, ht] at h
      subst h
      exact ⟨rfl, ht⟩

theorem truthyId_some_self {s : String} (hs : s ≠ "") : truthyId (some s) = some s := by
  simp [truthyId, hs]

/-! ## Claims C3 and C4: payload title derivation and delete statuses -/

/-- C3 (counterexample): for the spec named `"!!!"` with no title, the
claim's derivation (lowercase, collapse non-word runs to `_`, strip
underscores) yields the empty slug, but the payload built by `as_payload`
carries the raw name `"!!!"` as title (the `slug or self.name` fallback on
dataviews.py line 26), not the derived slug. -/
theorem as_payload_title_slug_counterexample :
    (DataViewSpec.as_payload ⟨"!!!", none, none, false, none, false⟩).title = some "!!!"
    ∧ slugify "!!!" = ""
    ∧ some "!!!" ≠ (some "" : Option String) :=
  ⟨by decide, by decide, by decide⟩

/-- C3 (amended): for every spec whose title is Python-falsy and whose name
is non-empty, the payload title is the slug of the name (lowercase,
non-word runs collapsed to a single underscore, leading/trailing
underscores stripped) when that slug is non-empty, and falls back to the
raw name when the slug is empty.  In particular the name
`"Kibana Sample Data eCommerce"` yields `"kibana_sample_data_ecommerce"`. -/
theorem as_payload_title_derivation (s : DataViewSpec)
    (h₁ : optTruthy s.title = false) (h₂ : s.name ≠ "") :
    s.as_payload.title
      = some (if slugify s.name = "" then s.name else slugify s.name) := by
  unfold DataViewSpec.as_payload
  simp [h₁, h₂]

/-- C3 (witness): the amended derivation applied to the spec named
`"Kibana Sample Data eCommerce"` with no title. -/
theorem as_payload_title_derivation_witness :
    optTruthy (⟨"Kibana Sample Data eCommerce", none, none, false, none, false⟩
        : DataViewSpec).title = false
    ∧ ("Kibana Sample Data eCommerce" : String) ≠ ""
    ∧ (DataViewSpec.as_payload
        ⟨"Kibana Sample Data eCommerce", none, none, false, none, false⟩).title
      = some (if slugify "Kibana Sample Data eCommerce" = ""
              then "Kibana Sample Data eCommerce"
              else slugify "Kibana Sample Data eCommerce")
    ∧ slugify "Kibana Sample Data eCommerce" = "kibana_sample_data_ecommerce" :=
  ⟨by decide, by decide,
   as_payload_title_derivation _ (by decide) (by decide), by decide⟩

/-- C4 (counterexample): status 201 is not one of 200/202/204/404, yet
`delete` returns successfully (`raise_for_status` does not raise on a 2xx),
refuting "returns successfully exactly when the status is 200, 202, 204,
or 404". -/
theorem delete_status_counterexample :
    delete 201 = .ok () ∧ ¬(201 = 200 ∨ 201 = 202 ∨ 201 = 204 ∨ 201 = 404) :=
  ⟨by decide, by decide⟩

/-- C4 (amended): `delete` returns successfully exactly when the response
status is 2xx or 404 (so deleting an already-absent resource is success),
and raises for every other status. -/
theorem delete_ok_iff (status : Nat) :
    delete status = .ok () ↔ ((200 ≤ status ∧ status ≤ 299) ∨ status = 404) := by
  unfold delete raiseForStatus is_success
  split_ifs with h₁ h₂ <;> (simp_all; try omega)

/-! ## Claim C2: skip rule for missing titles -/

/-- C2: whenever a desired spec has a Python-falsy title and a name matching
no observed resource (`skipCond`), the loop body `upsertStep` returns
successfully — the condition is recovered locally, never raised — and its
only effect is to append the single skip entry
`{reason: "missing_title", name: spec.name}`: `created` and `updated` are
untouched.  The statement holds for every oracle `r`, in particular for
one on which every HTTP call fails, so no create or update call is issued
for such a spec. -/
theorem sync_skip_missing_title (r : Remote) (idx : List (Option String × ObservedView))
    (i : Nat) (spec : DataViewSpec) (st : LoopState) (h : skipCond idx spec = true) :
    upsertStep r idx i spec st
      = .ok { st with skipped := st.skipped ++ [⟨"missing_title", some spec.name, none⟩] } := by
  simp [upsertStep, h]

/-- C2 (witness): the skip rule applied to the untitled spec `"n"` against
an empty observed collection, on the all-failing remote. -/
theorem sync_skip_missing_title_witness :
    skipCond (buildIndex errRemote.views) specNoTitle = true
    ∧ upsertStep errRemote (buildIndex errRemote.views) 0 specNoTitle initLoopState
      = .ok { initLoopState with
              skipped := initLoopState.skipped
                ++ [⟨"missing_title", some specNoTitle.name, none⟩] } :=
  ⟨by decide,
   sync_skip_missing_title errRemote (buildIndex errRemote.views) 0 specNoTitle
     initLoopState (by decide)⟩

/-! ## Inversion lemmas for the sync loops -/

theorem upsertStep_ok_cases {r : Remote} {idx : List (Option String × ObservedView)} {i : Nat}
    {spec : DataViewSpec} {st st₂ : LoopState}
    (h : upsertStep r idx i spec st = .ok st₂) :
    (skipCond idx spec = true
      ∧ st₂ = { st with skipped := st.skipped ++ [⟨"missing_title", some spec.name, none⟩] })
    ∨ (skipCond idx spec = false ∧ ∃ resp, r.createResp i = .ok resp ∧
        ((∃ view_id u, truthyId resp.dataViewId = some view_id ∧ r.updateResp i = .ok u ∧
            st₂ = { st with
                    updated := st.updated ++ [u]
                    firstViewId := if st.firstViewId.isNone then some view_id
                                   else st.firstViewId })
         ∨ (truthyId resp.dataViewId = none
            ∧ st₂ = { st with created := st.created ++ [resp] }))) := by
  by_cases hsk : skipCond idx spec
  · left
    refine ⟨hsk, ?_⟩
    simp [upsertStep, hsk] at h
    exact h.symm
  · right
    have hsk' : skipCond idx spec = false := by simpa using hsk
    refine ⟨hsk', ?_⟩
    simp only [upsertStep, hsk', Bool.false_eq_true, if_false] at h
    split at h
    · simp at h
    · rename_i resp hc
      refine ⟨resp, hc, ?_⟩
      split at h
      · rename_i view_id ht
        split at h
        · simp at h
        · rename_i u hup
          simp only [Except.ok.injEq] at h
          exact Or.inl ⟨view_id, u, ht, hup, h.symm⟩
      · rename_i ht
        simp only [Except.ok.injEq] at h
        refine Or.inr ⟨ht, ?_⟩
        rw [← h]
        simp [ht]

theorem upsertAll_ok_counts {r : Remote} {idx : List (Option String × ObservedView)} :
    ∀ (rest : List DataViewSpec) (i : Nat) (st st' : LoopState),
    upsertAll r idx i rest st = .ok st' →
    st'.created.length + st'.updated.length
      + (st'.skipped.filter (fun s => s.reason == "missing_title")).length
    = st.created.length + st.updated.length
      + (st.skipped.filter (fun s => s.reason == "missing_title")).length + rest.length := by
  intro rest
  induction rest with
  | nil =>
    intro i st st' h
    simp only [upsertAll, Except.ok.injEq] at h
    rw [← h]
    simp
  | cons spec rest ih =>
    intro i st st' h
    unfold upsertAll at h
    cases hs : upsertStep r idx i spec st with
    | error e => rw [hs] at h; simp at h
    | ok st₂ =>
      rw [hs] at h
      have hrec := ih (i + 1) st₂ st' h
      rcases upsertStep_ok_cases hs with ⟨_, rfl⟩ | ⟨_, resp, _, hbr⟩
      · simp only [List.filter_append] at hrec
        simp only [hrec]
        simp [List.length_cons]
        omega
      · rcases hbr with ⟨view_id, u, _, _, rfl⟩ | ⟨_, rfl⟩ <;>
          (simp only [List.length_append] at hrec; simp [hrec]; omega)

theorem upsertAll_ok_skipped {r : Remote} {idx : List (Option String × ObservedView)} :
    ∀ (rest : List DataViewSpec) (i : Nat) (st st' : LoopState),
    upsertAll r idx i rest st = .ok st' →
    st'.skipped = st.skipped
      ++ (rest.filter (fun s => skipCond idx s)).map
           (fun s => (⟨"missing_title", some s.name, none⟩ : SkipEntry)) := by
  intro rest
  induction rest with
  | nil =>
    intro i st st' h
    simp only [upsertAll, Except.ok.injEq] at h
    rw [← h]
    simp
  | cons spec rest ih =>
    intro i st st' h
    unfold upsertAll at h
    cases hs : upsertStep r idx i spec st with
    | error e => rw [hs] at h; simp at h
    | ok st₂ =>
      rw [hs] at h
      have hrec := ih (i + 1) st₂ st' h
      rcases upsertStep_ok_cases hs with ⟨hsk, rfl⟩ | ⟨hsk, resp, _, hbr⟩
      · simp [hrec, hsk]
      · rcases hbr with ⟨view_id, u, _, _, rfl⟩ | ⟨_, rfl⟩ <;> simp [hrec, hsk]

theorem upsertAll_ok_firstViewId {r : Remote} {idx : List (Option String × ObservedView)} :
    ∀ (rest : List DataViewSpec) (i : Nat) (st st' : LoopState),
    upsertAll r idx i rest st = .ok st' →
    (st.firstViewId = none → st'.firstViewId = expectedCandidate r idx i rest)
    ∧ (∀ v, st.firstViewId = some v → st'.firstViewId = some v) := by
  intro rest
  induction rest with
  | nil =>
    intro i st st' h
    simp only [upsertAll, Except.ok.injEq] at h
    rw [← h]
    constructor
    · intro hn; rw [hn]; rfl
    · intro v hv; exact hv
  | cons spec rest ih =>
    intro i st st' h
    unfold upsertAll at h
    cases hs : upsertStep r idx i spec st with
    | error e => rw [hs] at h; simp at h
    | ok st₂ =>
      rw [hs] at h
      have hrec := ih (i + 1) st₂ st' h
      rcases upsertStep_ok_cases hs with ⟨hsk, rfl⟩ | ⟨hsk, resp, hc, hbr⟩
      · constructor
        · intro hn
          simp only [expectedCandidate, hsk, if_true]
          exact hrec.1 hn
        · intro v hv
          exact hrec.2 v hv
      · rcases hbr with ⟨view_id, u, ht, hup, rfl⟩ | ⟨ht, rfl⟩
        · constructor
          · intro hn
            simp only [expectedCandidate, hsk, Bool.false_eq_true, if_false, hc, ht]
            exact hrec.2 view_id (by simp [hn])
          · intro v hv
            exact hrec.2 v (by simp [hv])
        · constructor
          · intro hn
            simp only [expectedCandidate, hsk, Bool.false_eq_true, if_false, hc, ht]
            exact hrec.1 hn
          · intro v hv
            exact hrec.2 v hv

theorem expectedCandidate_normalized {r : Remote} {idx : List (Option String × ObservedView)} :
    ∀ (rest : List DataViewSpec) (i : Nat),
    truthyId (expectedCandidate r idx i rest) = expectedCandidate r idx i rest := by
  intro rest
  induction rest with
  | nil => intro i; rfl
  | cons spec rest ih =>
    intro i
    by_cases hsk : skipCond idx spec
    · simp only [expectedCandidate, hsk, if_true]
      exact ih (i + 1)
    · have hsk' : skipCond idx spec = false := by simpa using hsk
      cases hc : r.createResp i with
      | error e => simp only [expectedCandidate, hsk', Bool.false_eq_true, if_false, hc]; rfl
      | ok resp =>
        cases ht : truthyId resp.dataViewId with
        | none =>
          simp only [expectedCandidate, hsk', Bool.false_eq_true, if_false, hc, ht]
          exact ih (i + 1)
        | some view_id =>
          simp only [expectedCandidate, hsk', Bool.false_eq_true, if_false, hc, ht]
          exact truthyId_some_self (truthyId_eq_some ht).2

theorem deleteStep_ok {r : Remote} {names : List String}
    {entry : Option String × ObservedView} {acc acc₂ : List DeletedEntry}
    (h : deleteStep r names entry acc = .ok acc₂) :
    acc₂ = acc ++ (delSelect names entry).toList := by
  obtain ⟨k, dv⟩ := entry
  cases k with
  | none =>
    simp only [deleteStep, Except.ok.injEq] at h
    simp [delSelect, ← h]
  | some name =>
    by_cases hn : (name != "" && !names.contains name) = true
    · cases ht : truthyId dv.id with
      | none =>
        simp only [deleteStep, hn, if_true, ht, Except.ok.injEq] at h
        rw [← h]
        simp only [delSelect, hn, if_true, ht, Option.toList_none, List.append_nil]
      | some view_id =>
        cases hd : r.deleteResp view_id with
        | error e =>
          simp only [deleteStep, hn, if_true, ht, hd] at h
          simp at h
        | ok u =>
          simp only [deleteStep, hn, if_true, ht, hd, Except.ok.injEq] at h
          rw [← h]
          simp only [delSelect, hn, if_true, ht, Option.toList_some]
    · have hn' : (name != "" && !names.contains name) = false := by simpa using hn
      simp only [deleteStep, hn', Bool.false_eq_true, if_false, Except.ok.injEq] at h
      rw [← h]
      simp only [delSelect, hn', Bool.false_eq_true, if_false, Option.toList_none,
        List.append_nil]

theorem deleteAll_ok {r : Remote} {names : List String} :
    ∀ (es : List (Option String × ObservedView)) (acc ds : List DeletedEntry),
    deleteAll r names es acc = .ok ds →
    ds = acc ++ es.filterMap (delSelect names) := by
  intro es
  induction es with
  | nil =>
    intro acc ds h
    simp only [deleteAll, Except.ok.injEq] at h
    simp [← h]
  | cons entry rest ih =>
    intro acc ds h
    unfold deleteAll at h
    cases hs : deleteStep r names entry acc with
    | error e => rw [hs] at h; simp at h
    | ok acc₂ =>
      rw [hs] at h
      have hrec := ih acc₂ ds h
      rw [deleteStep_ok hs] at hrec
      rw [hrec, List.filterMap_cons]
      cases hsel : delSelect names entry <;> simp [hsel]

theorem sync_ok_cases {r : Remote} {desired : List DataViewSpec} {rep : SyncReport}
    (h : sync r desired = .ok rep) :
    ∃ st ds, upsertAll r (buildIndex r.views) 0 desired initLoopState = .ok st
      ∧ deleteAll r (desired.map DataViewSpec.name) (buildIndex r.views) [] = .ok ds
      ∧ rep.created = st.created ∧ rep.updated = st.updated ∧ rep.deleted = ds
      ∧ (rep.skipped = st.skipped
         ∨ ∃ b, rep.skipped = st.skipped ++ [⟨"set_default_failed", none, some b⟩]) := by
  unfold sync at h
  split at h
  · simp at h
  · rename_i st hu
    split at h
    · simp at h
    · rename_i ds hd
      refine ⟨st, ds, hu, hd, ?_⟩
      split at h
      · rename_i fid hf
        split at h
        · simp only [Except.ok.injEq] at h
          rw [← h]
          exact ⟨rfl, rfl, rfl, Or.inl rfl⟩
        · rename_i e hsd
          simp only [Except.ok.injEq] at h
          rw [← h]
          exact ⟨rfl, rfl, rfl, Or.inr ⟨e.body, rfl⟩⟩
      · rename_i hf
        simp only [Except.ok.injEq] at h
        rw [← h]
        exact ⟨rfl, rfl, rfl, Or.inl rfl⟩

/-! ## Claim C1: the default candidate -/

/-- C1 (counterexample): on `rFirstCreated`, the first desired item
(`specA`) completes its upsert — its create call succeeds and it is
recorded under `created` — yet the id passed to `set_default` is `"idB"`,
taken from the second item.  The line-127 capture
`first_view_id is None and (maybe_id := dv_obj.get("id"))` can never fire
in the `created` branch (that branch is entered only when
`dv_obj.get("id")` is falsy), so an item recorded under `created` never
becomes the default candidate, refuting "regardless of whether that item
is recorded under created or under updated". -/
theorem sync_default_candidate_created_counterexample :
    sync rFirstCreated [specA, specB]
      = .ok ⟨[⟨none, 10⟩], [⟨some "idB", 12⟩], [], []⟩
    ∧ defaultCandidate rFirstCreated [specA, specB] = .ok (some "idB")
    ∧ rFirstCreated.createResp 0 = .ok ⟨none, 10⟩ :=
  ⟨by decide, by decide, by decide⟩

/-- C1 (amended): on every run whose upsert loop completes, the id `sync`
passes to `set_default` is `expectedCandidate` — the id of the first
desired item (input order) that is not skipped and whose create response
carries a truthy `data_view.id`, i.e. the first item recorded under
`updated`.  Items recorded under `created` never supply the candidate,
because the `created` branch is entered exactly when the create response
has no truthy id. -/
theorem sync_default_candidate_eq_expected (r : Remote) (desired : List DataViewSpec)
    (cand : Option String) (h : defaultCandidate r desired = .ok cand) :
    cand = expectedCandidate r (buildIndex r.views) 0 desired := by
  unfold defaultCandidate at h
  split at h
  · simp at h
  · rename_i st hu
    simp only [Except.ok.injEq] at h
    rw [← h]
    rw [(upsertAll_ok_firstViewId desired 0 initLoopState st hu).1 rfl]
    exact expectedCandidate_normalized desired 0

/-- C1 (witness): the amended candidate rule evaluated on `rFirstCreated`. -/
theorem sync_default_candidate_eq_expected_witness :
    defaultCandidate rFirstCreated [specA, specB] = .ok (some "idB")
    ∧ some "idB" = expectedCandidate rFirstCreated (buildIndex rFirstCreated.views) 0
        [specA, specB] :=
  ⟨by decide,
   sync_default_candidate_eq_expected rFirstCreated [specA, specB] (some "idB") (by decide)⟩

/-! ## Claim C5: deletion of unmatched observed resources -/

/-- C5 (counterexample): `rGhost` observes one resource, named `"ghost"`,
whose dict has no `"id"` key; `"ghost"` is not among the desired names
(the desired list is empty), yet `sync` returns with an empty `deleted`
list — the resource is neither deleted nor recorded, because the line-131
guard `(view_id := dv.get("id"))` fails.  This refutes "for every observed
resource whose name is not present ... deletes it exactly once and records
an entry". -/
theorem sync_deletes_unmatched_counterexample :
    sync rGhost [] = .ok ⟨[], [], [], []⟩
    ∧ rGhost.views = [⟨some "ghost", none⟩]
    ∧ ("ghost" ∉ ([] : List DataViewSpec).map DataViewSpec.name) :=
  ⟨by decide, by decide, by simp⟩

/-- C5 (amended): on every successful run, the `deleted` report list is
exactly one entry `{id, name}` per entry of the name index (one index
entry per distinct observed name, last write wins) whose name is truthy
and absent from the desired names and whose id is truthy, in index order —
such resources are deleted exactly once; observed resources with a falsy
name or id, or shadowed by a later duplicate name, are not deleted. -/
theorem sync_deleted_characterization (r : Remote) (desired : List DataViewSpec)
    (rep : SyncReport) (h : sync r desired = .ok rep) :
    rep.deleted
      = (buildIndex r.views).filterMap (delSelect (desired.map DataViewSpec.name)) := by
  obtain ⟨st, ds, hu, hd, hc, hup, hdel, hsk⟩ := sync_ok_cases h
  rw [hdel]
  simpa using deleteAll_ok (buildIndex r.views) [] ds hd

/-- C5 (witness): the deletion rule evaluated on `rOld` with desired
`[specB]`: the observed `"old"` resource is deleted and recorded, the
id-less `"ghost"` resource is not. -/
theorem sync_deleted_characterization_witness :
    sync rOld [specB] = .ok ⟨[], [⟨some "z", 1⟩], [⟨"o1", "old"⟩], []⟩
    ∧ (⟨[], [⟨some "z", 1⟩], [⟨"o1", "old"⟩], []⟩ : SyncReport).deleted
      = (buildIndex rOld.views).filterMap (delSelect ([specB].map DataViewSpec.name)) :=
  ⟨by decide,
   sync_deleted_characterization rOld [specB] ⟨[], [⟨some "z", 1⟩], [⟨"o1", "old"⟩], []⟩
     (by decide)⟩

/-! ## Claim C6: set_default failure isolation -/

/-- C6: if the upsert and deletion phases complete, a default candidate
exists, and the `set_default` call fails, then `sync` does not raise: it
returns the report with `created`, `updated` and `deleted` exactly as
already computed and exactly one extra `skipped` entry
`{reason: "set_default_failed", error}`. -/
theorem sync_set_default_failure_isolated (r : Remote) (desired : List DataViewSpec)
    (st : LoopState) (ds : List DeletedEntry) (fid : String) (e : RemoteErr)
    (hu : upsertAll r (buildIndex r.views) 0 desired initLoopState = .ok st)
    (hd : deleteAll r (desired.map DataViewSpec.name) (buildIndex r.views) [] = .ok ds)
    (hf : truthyId st.firstViewId = some fid)
    (he : r.setDefaultResp fid = .error e) :
    sync r desired
      = .ok ⟨st.created, st.updated, ds,
             st.skipped ++ [⟨"set_default_failed", none, some e.body⟩]⟩ := by
  simp only [sync, hu, hd, hf, he]

/-- C6 (witness): the failure-isolation rule evaluated on `rSetDefFail`
(CRUD succeeds, `set_default` fails with a 500). -/
theorem sync_set_default_failure_isolated_witness :
    upsertAll rSetDefFail (buildIndex rSetDefFail.views) 0 [specA] initLoopState
      = .ok ⟨[], [⟨some "idA", 1⟩], [], some "idA"⟩
    ∧ deleteAll rSetDefFail ([specA].map DataViewSpec.name) (buildIndex rSetDefFail.views) []
      = .ok []
    ∧ truthyId (some "idA") = some "idA"
    ∧ rSetDefFail.setDefaultResp "idA" = .error ⟨500, "boom"⟩
    ∧ sync rSetDefFail [specA]
      = .ok ⟨[], [⟨some "idA", 1⟩], [],
             [] ++ [⟨"set_default_failed", none, some (RemoteErr.mk 500 "boom").body⟩]⟩ :=
  ⟨by decide, by decide, by decide, by decide,
   sync_set_default_failure_isolated rSetDefFail [specA]
     ⟨[], [⟨some "idA", 1⟩], [], some "idA"⟩ [] "idA" ⟨500, "boom"⟩
     (by decide) (by decide) (by decide) (by decide)⟩

/-! ## Claim C7: error propagation for core CRUD -/

/-- C7: `sync` ends in an error exactly when a create/update call of the
upsert phase or a delete call of the deletion phase raised, and it is that
same error; the error carries no report, so the caller receives either a
complete report or a single terminal error.  In particular the
default-designation step never produces an error (it is the only shielded
step): when both phases complete, `sync` returns `.ok`. -/
theorem sync_error_propagation (r : Remote) (desired : List DataViewSpec) (e : RemoteErr) :
    sync r desired = .error e ↔
      (upsertAll r (buildIndex r.views) 0 desired initLoopState = .error e
       ∨ ∃ st, upsertAll r (buildIndex r.views) 0 desired initLoopState = .ok st
           ∧ deleteAll r (desired.map DataViewSpec.name) (buildIndex r.views) [] = .error e) := by
  unfold sync
  cases hu : upsertAll r (buildIndex r.views) 0 desired initLoopState with
  | error e₂ => simp
  | ok st =>
    cases hd : deleteAll r (desired.map DataViewSpec.name) (buildIndex r.views) [] with
    | error e₂ => simp
    | ok ds =>
      cases hf : truthyId st.firstViewId with
      | none => simp [hf]
      | some fid => cases hsd : r.setDefaultResp fid <;> simp [hf, hsd]

/-! ## Claim C8: empty desired list -/

/-- C8 (counterexample): with an empty desired list, the observed resource
named `"ghost"` (whose dict has no `"id"` key) is not deleted — `sync`
returns an entirely empty report — refuting "deletes every observed
resource". -/
theorem sync_empty_desired_counterexample :
    sync rGhost [] = .ok ⟨[], [], [], []⟩ ∧ rGhost.views ≠ [] :=
  ⟨by decide, by decide⟩

/-- C8 (amended): on every successful run with an empty desired list, the
report has empty `created`, `updated` and `skipped`, and `deleted`
contains exactly one entry per index entry with truthy name and truthy id
(every such observed resource is deleted; resources with a falsy name or
id, or shadowed by a duplicate name, survive). -/
theorem sync_empty_desired (r : Remote) (rep : SyncReport) (h : sync r [] = .ok rep) :
    rep.created = [] ∧ rep.updated = [] ∧ rep.skipped = []
    ∧ rep.deleted = (buildIndex r.views).filterMap (delSelect []) := by
  have hu : upsertAll r (buildIndex r.views) 0 [] initLoopState = .ok initLoopState := rfl
  unfold sync at h
  rw [hu] at h
  simp only [] at h
  cases hd : deleteAll r (([] : List DataViewSpec).map DataViewSpec.name)
      (buildIndex r.views) [] with
  | error e₂ => rw [hd] at h; simp at h
  | ok ds =>
    rw [hd] at h
    simp only [initLoopState, truthyId, Except.ok.injEq] at h
    rw [← h]
    refine ⟨rfl, rfl, rfl, ?_⟩
    simpa using deleteAll_ok (buildIndex r.views) [] ds hd

/-- C8 (witness): the empty-desired rule evaluated on `rOld`. -/
theorem sync_empty_desired_witness :
    sync rOld [] = .ok ⟨[], [], [⟨"o1", "old"⟩], []⟩
    ∧ ((⟨[], [], [⟨"o1", "old"⟩], []⟩ : SyncReport).created = []
       ∧ (⟨[], [], [⟨"o1", "old"⟩], []⟩ : SyncReport).updated = []
       ∧ (⟨[], [], [⟨"o1", "old"⟩], []⟩ : SyncReport).skipped = []
       ∧ (⟨[], [], [⟨"o1", "old"⟩], []⟩ : SyncReport).deleted
         = (buildIndex rOld.views).filterMap (delSelect [])) :=
  ⟨by decide, sync_empty_desired rOld ⟨[], [], [⟨"o1", "old"⟩], []⟩ (by decide)⟩

/-! ## Claim C10: every desired spec contributes exactly one record -/

/-- C10: whenever `sync` returns a report, each desired spec contributed
exactly one record: the length of `created` plus the length of `updated`
plus the number of `skipped` entries with reason `"missing_title"` equals
the length of the desired list. -/
theorem sync_report_partition_count (r : Remote) (desired : List DataViewSpec)
    (rep : SyncReport) (h : sync r desired = .ok rep) :
    rep.created.length + rep.updated.length
      + (rep.skipped.filter (fun s => s.reason == "missing_title")).length
    = desired.length := by
  obtain ⟨st, ds, hu, hd, hc, hup, hdel, hsk⟩ := sync_ok_cases h
  have hcount := upsertAll_ok_counts desired 0 initLoopState st hu
  simp only [initLoopState] at hcount
  simp only [List.length_nil, List.filter_nil, Nat.zero_add] at hcount
  rcases hsk with hsk | ⟨b, hsk⟩
  · rw [hc, hup, hsk]
    simpa using hcount
  · rw [hc, hup, hsk]
    rw [List.filter_append]
    simpa using hcount

/-- C10 (witness): the count rule evaluated on a run where one spec lands
in `updated` and `set_default` fails (the `"set_default_failed"` entry is
not counted). -/
theorem sync_report_partition_count_witness :
    sync rSetDefFail [specA]
      = .ok ⟨[], [⟨some "idA", 1⟩], [], [⟨"set_default_failed", none, some "boom"⟩]⟩
    ∧ (⟨[], [⟨some "idA", 1⟩], [], [⟨"set_default_failed", none, some "boom"⟩]⟩
        : SyncReport).created.length
      + (⟨[], [⟨some "idA", 1⟩], [], [⟨"set_default_failed", none, some "boom"⟩]⟩
          : SyncReport).updated.length
      + ((⟨[], [⟨some "idA", 1⟩], [], [⟨"set_default_failed", none, some "boom"⟩]⟩
          : SyncReport).skipped.filter (fun s => s.reason == "missing_title")).length
      = [specA].length :=
  ⟨by decide,
   sync_report_partition_count rSetDefFail [specA]
     ⟨[], [⟨some "idA", 1⟩], [], [⟨"set_default_failed", none, some "boom"⟩]⟩ (by decide)⟩

/-! ## Idealized-server lemmas (claim C9) -/

theorem mkId_ne_empty (n : Nat) : mkId n ≠ "" := by
  intro h
  have h2 : ('i' :: List.replicate n 'x') = ([] : List Char) := congrArg String.data h
  simp at h2

theorem mkId_inj {m n : Nat} (h : mkId m = mkId n) : m = n := by
  have h2 := congrArg (fun s => s.data.length) h
  simpa [mkId] using h2

theorem createS_id_ne_empty {st : ServerState} {n : String}
    (h : ∀ v ∈ st.views, v.id ≠ "") : (createS st n).2 ≠ "" := by
  unfold createS
  cases hf : st.views.find? (fun v => v.name == n) with
  | none => exact mkId_ne_empty st.counter
  | some v => exact h v (List.mem_of_find?_eq_some hf)

theorem buildIndex_aux :
    ∀ (vs : List SView) (acc : List (Option String × ObservedView)),
    (vs.map SView.name).Nodup →
    (∀ v ∈ vs, ∀ p ∈ acc, p.1 ≠ some v.name) →
    List.foldl (fun m dv => dictInsert m dv.name dv) acc
        (vs.map (fun v => (⟨some v.name, some v.id⟩ : ObservedView)))
      = acc ++ vs.map entryOf := by
  intro vs
  induction vs with
  | nil => intro acc _ _; simp
  | cons v vs ih =>
    intro acc hnd hdisj
    have hnone : acc.any (fun p => p.1 == some v.name) = false := by
      rw [List.any_eq_false]
      intro p hp
      simpa using hdisj v (by simp) p hp
    have hstep : dictInsert acc (some v.name) ⟨some v.name, some v.id⟩
        = acc ++ [entryOf v] := by
      simp [dictInsert, hnone, entryOf]
    simp only [List.map_cons, List.foldl_cons]
    have hrec := ih (acc ++ [entryOf v]) (by simpa using hnd.of_cons) ?disj
    case disj =>
      intro w hw p hp
      rcases List.mem_append.1 hp with hp | hp
      · exact hdisj w (by simp [hw]) p hp
      · simp only [List.mem_singleton] at hp
        subst hp
        simp only [entryOf, ne_eq, Option.some.injEq]
        intro hvw
        have : v.name ∈ vs.map SView.name := List.mem_map.2 ⟨w, hw, hvw.symm⟩
        simp only [List.map_cons, List.nodup_cons] at hnd
        exact hnd.1 this
    calc List.foldl (fun m dv => dictInsert m dv.name dv)
          (dictInsert acc (some v.name) ⟨some v.name, some v.id⟩)
          (vs.map (fun v => (⟨some v.name, some v.id⟩ : ObservedView)))
        = List.foldl (fun m dv => dictInsert m dv.name dv) (acc ++ [entryOf v])
            (vs.map (fun v => (⟨some v.name, some v.id⟩ : ObservedView))) := by rw [hstep]
      _ = (acc ++ [entryOf v]) ++ vs.map entryOf := hrec
      _ = acc ++ (v :: vs).map entryOf := by simp

theorem buildIndex_observe {st : ServerState} (h : (st.views.map SView.name).Nodup) :
    buildIndex (observe st) = st.views.map entryOf := by
  have := buildIndex_aux st.views [] h (by simp)
  simpa [buildIndex, observe] using this

theorem upsertAllS_fst (idx : List (Option String × ObservedView)) :
    ∀ (ds : List DataViewSpec) (i : Nat) (st : ServerState) (ls : LoopState),
    (upsertAllS idx i ds st ls).1 = upsertServer idx ds st := by
  intro ds
  induction ds with
  | nil => intro i st ls; rfl
  | cons spec rest ih =>
    intro i st ls
    by_cases hsk : skipCond idx spec
    · simp only [upsertAllS, upsertServer, hsk, if_true]
      exact ih (i + 1) st _
    · have hsk' : skipCond idx spec = false := by simpa using hsk
      simp only [upsertAllS, upsertServer, hsk', Bool.false_eq_true, if_false]
      cases hti : truthyId (some (createS st spec.name).2) <;> simp only [] <;>
        exact ih (i + 1) _ _

theorem upsertServer_ext (idx : List (Option String × ObservedView)) :
    ∀ (ds : List DataViewSpec) (st : ServerState),
    ∃ ext, (upsertServer idx ds st).views = st.views ++ ext
      ∧ (∀ v ∈ ext,
          v.name ∈ (ds.filter (fun s => !skipCond idx s)).map DataViewSpec.name)
      ∧ (∀ v ∈ ext, v.name ∉ st.views.map SView.name)
      ∧ (∀ v ∈ ext, ∃ m, st.counter ≤ m ∧ v.id = mkId m)
      ∧ st.counter ≤ (upsertServer idx ds st).counter := by
  intro ds
  induction ds with
  | nil =>
    intro st
    exact ⟨[], by simp [upsertServer], by simp, by simp, by simp, le_rfl⟩
  | cons spec rest ih =>
    intro st
    by_cases hsk : skipCond idx spec
    · obtain ⟨ext, h1, h2, h3, h4, h5⟩ := ih st
      have hfil : (spec :: rest).filter (fun s => !skipCond idx s)
          = rest.filter (fun s => !skipCond idx s) := by
        simp [List.filter_cons, hsk]
      refine ⟨ext, ?_, ?_, h3, h4, ?_⟩
      · simpa [upsertServer, hsk] using h1
      · intro v hv
        rw [hfil]
        exact h2 v hv
      · simpa [upsertServer, hsk] using h5
    · have hsk' : skipCond idx spec = false := by simpa using hsk
      have hfil : (spec :: rest).filter (fun s => !skipCond idx s)
          = spec :: rest.filter (fun s => !skipCond idx s) := by
        simp [List.filter_cons, hsk']
      have hgoal : upsertServer idx (spec :: rest) st
          = upsertServer idx rest (createS st spec.name).1 := by
        simp [upsertServer, hsk']
      cases hf : st.views.find? (fun v => v.name == spec.name) with
      | some v0 =>
        have hcs : (createS st spec.name).1 = st := by simp [createS, hf]
        obtain ⟨ext, h1, h2, h3, h4, h5⟩ := ih st
        refine ⟨ext, ?_, ?_, h3, h4, ?_⟩
        · rw [hgoal, hcs]; exact h1
        · intro v hv
          rw [hfil]
          have := h2 v hv
          simp only [List.map_cons, List.mem_cons]
          exact Or.inr this
        · rw [hgoal, hcs]; exact h5
      | none =>
        have hnotin : spec.name ∉ st.views.map SView.name := by
          intro hmem
          obtain ⟨w, hw, hwn⟩ := List.mem_map.1 hmem
          have := List.find?_eq_none.1 hf w hw
          simp [hwn] at this
        have hcs : (createS st spec.name).1
            = { views := st.views ++ [⟨mkId st.counter, spec.name⟩],
                counter := st.counter + 1 } := by
          simp [createS, hf]
        obtain ⟨ext, h1, h2, h3, h4, h5⟩ := ih ((createS st spec.name).1)
        rw [hcs] at h1 h3 h4 h5
        refine ⟨⟨mkId st.counter, spec.name⟩ :: ext, ?_, ?_, ?_, ?_, ?_⟩
        · rw [hgoal, hcs, h1]
          simp
        · intro v hv
          rw [hfil]
          rcases List.mem_cons.1 hv with rfl | hv
          · simp
          · have := h2 v hv
            simp only [List.map_cons, List.mem_cons]
            exact Or.inr this
        · intro v hv
          rcases List.mem_cons.1 hv with rfl | hv
          · exact hnotin
          · have := h3 v hv
            simp only [List.map_append, List.map_cons, List.map_nil] at this
            intro hmem
            exact this (List.mem_append.2 (Or.inl hmem))
        · intro v hv
          rcases List.mem_cons.1 hv with rfl | hv
          · exact ⟨st.counter, le_rfl, rfl⟩
          · obtain ⟨m, hm, hid⟩ := h4 v hv
            exact ⟨m, Nat.le_of_succ_le hm, hid⟩
        · rw [hgoal, hcs]
          exact Nat.le_of_succ_le h5

theorem createS_wf {st : ServerState} {n : String} (hwf : WFState st) :
    WFState (createS st n).1 := by
  obtain ⟨hid, hnames, hids, hfresh⟩ := hwf
  cases hf : st.views.find? (fun v => v.name == n) with
  | some v0 => simpa [createS, hf] using ⟨hid, hnames, hids, hfresh⟩
  | none =>
    have hnotin : n ∉ st.views.map SView.name := by
      intro hmem
      obtain ⟨w, hw, hwn⟩ := List.mem_map.1 hmem
      have := List.find?_eq_none.1 hf w hw
      simp [hwn] at this
    have hidnotin : mkId st.counter ∉ st.views.map SView.id := by
      intro hmem
      obtain ⟨w, hw, hwn⟩ := List.mem_map.1 hmem
      exact hfresh st.counter le_rfl w hw hwn
    refine ⟨?_, ?_, ?_, ?_⟩ <;> simp only [createS, hf]
    · intro v hv
      rcases List.mem_append.1 hv with hv | hv
      · exact hid v hv
      · simp only [List.mem_singleton] at hv
        subst hv
        exact mkId_ne_empty st.counter
    · simp only [List.map_append, List.map_cons, List.map_nil]
      rw [List.nodup_append]
      refine ⟨hnames, by simp, ?_⟩
      intro a ha hb
      simp only [List.mem_singleton] at hb
      subst hb
      exact hnotin ha
    · simp only [List.map_append, List.map_cons, List.map_nil]
      rw [List.nodup_append]
      refine ⟨hids, by simp, ?_⟩
      intro a ha hb
      simp only [List.mem_singleton] at hb
      subst hb
      exact hidnotin ha
    · intro m hm v hv
      rcases List.mem_append.1 hv with hv | hv
      · exact hfresh m (Nat.le_of_succ_le hm) v hv
      · simp only [List.mem_singleton] at hv
        subst hv
        intro heq
        have := mkId_inj heq
        omega

theorem upsertServer_wf (idx : List (Option String × ObservedView)) :
    ∀ (ds : List DataViewSpec) (st : ServerState), WFState st →
    WFState (upsertServer idx ds st) := by
  intro ds
  induction ds with
  | nil => intro st hwf; exact hwf
  | cons spec rest ih =>
    intro st hwf
    by_cases hsk : skipCond idx spec
    · simpa [upsertServer, hsk] using ih st hwf
    · have hsk' : skipCond idx spec = false := by simpa using hsk
      simp only [upsertServer, hsk', Bool.false_eq_true, if_false]
      exact ih _ (createS_wf hwf)

theorem deleteS_wf {st : ServerState} {vid : String} (hwf : WFState st) :
    WFState (deleteS st vid) := by
  obtain ⟨hid, hnames, hids, hfresh⟩ := hwf
  have hsub : (deleteS st vid).views.Sublist st.views := List.filter_sublist st.views
  refine ⟨?_, ?_, ?_, ?_⟩
  · intro v hv
    exact hid v (hsub.mem hv)
  · exact (hsub.map SView.name).nodup hnames
  · exact (hsub.map SView.id).nodup hids
  · intro m hm v hv
    exact hfresh m hm v (hsub.mem hv)

theorem deleteAllS_wf (names : List String) :
    ∀ (es : List (Option String × ObservedView)) (st : ServerState)
      (acc : List DeletedEntry), WFState st →
    WFState (deleteAllS names es st acc).1 := by
  intro es
  induction es with
  | nil => intro st acc hwf; exact hwf
  | cons entry rest ih =>
    intro st acc hwf
    obtain ⟨k, dv⟩ := entry
    cases k with
    | none => exact ih st acc hwf
    | some name =>
      by_cases hn : (name != "" && !names.contains name) = true
      · cases ht : truthyId dv.id with
        | none => simp only [deleteAllS, hn, if_true, ht]; exact ih st acc hwf
        | some view_id =>
          simp only [deleteAllS, hn, if_true, ht]
          exact ih _ _ (deleteS_wf hwf)
      · have hn' : (name != "" && !names.contains name) = false := by simpa using hn
        simp only [deleteAllS, hn', Bool.false_eq_true, if_false]
        exact ih st acc hwf

theorem delSelect_entryOf (names : List String) (v : SView) :
    delSelect names (entryOf v)
      = if delCond names v then some ⟨v.id, v.name⟩ else none := by
  by_cases hn : (v.name != "" && !names.contains v.name) = true
  · by_cases hi : v.id = ""
    · have hc : delCond names v = false := by simp [delCond, hn, hi]
      simp [delSelect, entryOf, truthyId, hn, hi, hc]
    · have hc : delCond names v = true := by
        simp only [delCond, Bool.and_eq_true] at hn ⊢
        exact ⟨hn, by simpa using hi⟩
      simp [delSelect, entryOf, truthyId, hn, hi, hc]
      simpa using hn
  · have hn' : (v.name != "" && !names.contains v.name) = false := by simpa using hn
    have hc : delCond names v = false := by
      simp only [delCond]
      simp only [Bool.and_eq_false_iff] at hn' ⊢
      rcases hn' with h | h
      · exact Or.inl (Or.inl h)
      · exact Or.inl (Or.inr h)
    simp [delSelect, entryOf, hn', hc]
    intro h1 h2
    have hmem : v.name ∈ names := by simpa [h1] using hn'
    exact absurd hmem h2

theorem deleteAllS_cons (names : List String) (entry : Option String × ObservedView)
    (rest : List (Option String × ObservedView)) (st : ServerState)
    (acc : List DeletedEntry) :
    deleteAllS names (entry :: rest) st acc
      = match delSelect names entry with
        | some d => deleteAllS names rest (deleteS st d.id) (acc ++ [d])
        | none => deleteAllS names rest st acc := by
  obtain ⟨k, dv⟩ := entry
  cases k with
  | none => simp [deleteAllS, delSelect]
  | some name =>
    by_cases hn : (name != "" && !names.contains name) = true
    · have hprop : ¬name = "" ∧ name ∉ names := by simpa using hn
      cases ht : truthyId dv.id with
      | none => simp [deleteAllS, delSelect, hn, ht]
      | some view_id => simp [deleteAllS, delSelect, hn, ht, hprop.1, hprop.2]
    · have hn' : (name != "" && !names.contains name) = false := by simpa using hn
      have hprop : ¬(¬name = "" ∧ name ∉ names) := by
        intro hc
        have hmem : name ∈ names := by simpa [hc.1] using hn'
        exact hc.2 hmem
      simp [deleteAllS, delSelect, hn', hprop]

theorem deleteAllS_snd (names : List String) :
    ∀ (es : List (Option String × ObservedView)) (st : ServerState)
      (acc : List DeletedEntry),
    (deleteAllS names es st acc).2 = acc ++ es.filterMap (delSelect names) := by
  intro es
  induction es with
  | nil => intro st acc; simp [deleteAllS]
  | cons entry rest ih =>
    intro st acc
    rw [deleteAllS_cons]
    cases hsel : delSelect names entry with
    | none => rw [ih]; simp [List.filterMap_cons, hsel]
    | some d => rw [ih]; simp [List.filterMap_cons, hsel]

theorem deleteAllS_fst (names : List String) :
    ∀ (es : List (Option String × ObservedView)) (st : ServerState)
      (acc : List DeletedEntry),
    (deleteAllS names es st acc).1.views
      = st.views.filter
          (fun v => !((es.filterMap (delSelect names)).map DeletedEntry.id).contains v.id) := by
  intro es
  induction es with
  | nil => intro st acc; simp [deleteAllS]
  | cons entry rest ih =>
    intro st acc
    rw [deleteAllS_cons]
    cases hsel : delSelect names entry with
    | none =>
      rw [ih]
      simp [List.filterMap_cons, hsel]
    | some d =>
      rw [ih]
      simp only [List.filterMap_cons, hsel, deleteS, List.filter_filter]
      rw [List.filter_congr]
      intro v _
      simp only [List.map_cons, List.contains_cons, Bool.not_or, Bool.and_comm]
      rfl

theorem createS_ids_truthy {st : ServerState} {n : String}
    (h : ∀ v ∈ st.views, v.id ≠ "") : ∀ v ∈ (createS st n).1.views, v.id ≠ "" := by
  cases hf : st.views.find? (fun v => v.name == n) with
  | some v0 => simpa [createS, hf] using h
  | none =>
    simp only [createS, hf]
    intro v hv
    rcases List.mem_append.1 hv with hv | hv
    · exact h v hv
    · simp only [List.mem_singleton] at hv
      subst hv
      exact mkId_ne_empty st.counter

theorem upsertAllS_firstViewId (idx : List (Option String × ObservedView)) :
    ∀ (ds : List DataViewSpec) (i : Nat) (st : ServerState) (ls : LoopState),
    (ls.firstViewId = none →
      (upsertAllS idx i ds st ls).2.firstViewId = expectedCandidateS idx ds st)
    ∧ (∀ v, ls.firstViewId = some v → (upsertAllS idx i ds st ls).2.firstViewId = some v) := by
  intro ds
  induction ds with
  | nil =>
    intro i st ls
    exact ⟨fun hn => by simpa [upsertAllS, expectedCandidateS] using hn,
           fun v hv => by simpa [upsertAllS] using hv⟩
  | cons spec rest ih =>
    intro i st ls
    by_cases hsk : skipCond idx spec
    · constructor
      · intro hn
        simp only [upsertAllS, expectedCandidateS, hsk, if_true]
        exact (ih (i + 1) st _).1 hn
      · intro v hv
        simp only [upsertAllS, hsk, if_true]
        exact (ih (i + 1) st _).2 v hv
    · have hsk' : skipCond idx spec = false := by simpa using hsk
      by_cases hid : (createS st spec.name).2 = ""
      · have ht : truthyId (some (createS st spec.name).2) = none := by
          simp [truthyId, hid]
        constructor
        · intro hn
          simp only [upsertAllS, expectedCandidateS, hsk', Bool.false_eq_true, if_false,
            ht, hid, if_pos (beq_iff_eq.2 hid)]
          exact (ih (i + 1) _ _).1 (by simp [truthyId, hn])
        · intro v hv
          simp only [upsertAllS, hsk', Bool.false_eq_true, if_false, ht]
          exact (ih (i + 1) _ _).2 v (by simp [truthyId, hv])
      · have ht : truthyId (some (createS st spec.name).2)
            = some (createS st spec.name).2 := by
          simp [truthyId, hid]
        have hbeq : ((createS st spec.name).2 == "") = false := by simpa using hid
        constructor
        · intro hn
          simp only [upsertAllS, expectedCandidateS, hsk', Bool.false_eq_true, if_false,
            ht, hbeq]
          exact (ih (i + 1) _ _).2 _ (by simp [hn])
        · intro v hv
          simp only [upsertAllS, hsk', Bool.false_eq_true, if_false, ht]
          exact (ih (i + 1) _ _).2 v (by simp [hv])

theorem expectedCandidateS_normalized (idx : List (Option String × ObservedView)) :
    ∀ (ds : List DataViewSpec) (st : ServerState),
    truthyId (expectedCandidateS idx ds st) = expectedCandidateS idx ds st := by
  intro ds
  induction ds with
  | nil => intro st; rfl
  | cons spec rest ih =>
    intro st
    by_cases hsk : skipCond idx spec
    · simp only [expectedCandidateS, hsk, if_true]
      exact ih st
    · have hsk' : skipCond idx spec = false := by simpa using hsk
      by_cases hid : (createS st spec.name).2 = ""
      · simp only [expectedCandidateS, hsk', Bool.false_eq_true, if_false,
          if_pos (beq_iff_eq.2 hid)]
        exact ih _
      · have hbeq : ((createS st spec.name).2 == "") = false := by simpa using hid
        simp only [expectedCandidateS, hsk', Bool.false_eq_true, if_false, hbeq]
        simp [truthyId, hid]

theorem candidateS_eq_expected (st : ServerState) (desired : List DataViewSpec) :
    candidateS st desired
      = expectedCandidateS (buildIndex (observe st)) desired st := by
  unfold candidateS
  rw [(upsertAllS_firstViewId (buildIndex (observe st)) desired 0 st initLoopState).1 rfl]
  exact expectedCandidateS_normalized (buildIndex (observe st)) desired st

theorem expectedCandidateS_find (idx : List (Option String × ObservedView)) :
    ∀ (ds : List DataViewSpec) (st : ServerState), (∀ v ∈ st.views, v.id ≠ "") →
    expectedCandidateS idx ds st
      = match ds.find? (fun s => !skipCond idx s) with
        | none => none
        | some spec => some (createS st spec.name).2 := by
  intro ds
  induction ds with
  | nil => intro st _; rfl
  | cons spec rest ih =>
    intro st hids
    by_cases hsk : skipCond idx spec
    · have hfind : (spec :: rest).find? (fun s => !skipCond idx s)
          = rest.find? (fun s => !skipCond idx s) := by
        rw [List.find?_cons_of_neg]
        simp [hsk]
      rw [hfind]
      simp only [expectedCandidateS, hsk, if_true]
      exact ih st hids
    · have hsk' : skipCond idx spec = false := by simpa using hsk
      have hfind : (spec :: rest).find? (fun s => !skipCond idx s) = some spec := by
        rw [List.find?_cons_of_pos]
        simp [hsk']
      rw [hfind]
      have hid : (createS st spec.name).2 ≠ "" := createS_id_ne_empty hids
      have hbeq : ((createS st spec.name).2 == "") = false := by simpa using hid
      simp only [expectedCandidateS, hsk', Bool.false_eq_true, if_false, hbeq]

theorem upsertAllS_created (idx : List (Option String × ObservedView)) :
    ∀ (ds : List DataViewSpec) (i : Nat) (st : ServerState) (ls : LoopState),
    (∀ v ∈ st.views, v.id ≠ "") →
    (upsertAllS idx i ds st ls).2.created = ls.created := by
  intro ds
  induction ds with
  | nil => intro i st ls _; rfl
  | cons spec rest ih =>
    intro i st ls hids
    by_cases hsk : skipCond idx spec
    · simp only [upsertAllS, hsk, if_true]
      exact ih (i + 1) st _ hids
    · have hsk' : skipCond idx spec = false := by simpa using hsk
      have hid : (createS st spec.name).2 ≠ "" := createS_id_ne_empty hids
      have ht : truthyId (some (createS st spec.name).2)
          = some (createS st spec.name).2 := by simp [truthyId, hid]
      simp only [upsertAllS, hsk', Bool.false_eq_true, if_false, ht]
      exact ih (i + 1) _ _ (createS_ids_truthy hids)

theorem findq_congr {α : Type} {p q : α → Bool} :
    ∀ (l : List α), (∀ a ∈ l, p a = q a) → l.find? p = l.find? q := by
  intro l
  induction l with
  | nil => intro _; rfl
  | cons a l ih =>
    intro h
    have ha := h a (by simp)
    by_cases hp : p a = true
    · rw [List.find?_cons_of_pos _ hp, List.find?_cons_of_pos _ (ha ▸ hp)]
    · have hp' : p a = false := by simpa using hp
      have hq' : q a = false := ha ▸ hp'
      rw [List.find?_cons_of_neg _ (by simp [hp']), List.find?_cons_of_neg _ (by simp [hq'])]
      exact ih fun b hb => h b (by simp [hb])

theorem indexHasName_map (l : List SView) (n : String) :
    indexHasName (l.map entryOf) n = l.any (fun v => v.name == n) := by
  induction l with
  | nil => rfl
  | cons v vs ih =>
    have hhead : ((entryOf v).1 == some n) = (v.name == n) := by
      by_cases hv : v.name = n
      · simp [entryOf, hv]
      · simp [entryOf, hv]
    simp only [indexHasName, List.map_cons, List.any_cons] at ih ⊢
    rw [hhead, ih]

theorem upsertServer_first_new (idx : List (Option String × ObservedView)) :
    ∀ (ds : List DataViewSpec) (st : ServerState) (spec : DataViewSpec),
    ds.find? (fun s => !skipCond idx s) = some spec →
    st.views.find? (fun v => v.name == spec.name) = none →
    (⟨mkId st.counter, spec.name⟩ : SView) ∈ (upsertServer idx ds st).views := by
  intro ds
  induction ds with
  | nil => intro st spec hfind _; simp at hfind
  | cons s rest ih =>
    intro st spec hfind hnf
    by_cases hsk : skipCond idx s
    · rw [List.find?_cons_of_neg _ (by simp [hsk])] at hfind
      simp only [upsertServer, hsk, if_true]
      exact ih st spec hfind hnf
    · have hsk' : skipCond idx s = false := by simpa using hsk
      rw [List.find?_cons_of_pos _ (by simp [hsk'])] at hfind
      simp only [Option.some.injEq] at hfind
      subst hfind
      simp only [upsertServer, hsk', Bool.false_eq_true, if_false]
      have hcs : (createS st s.name).1
          = { views := st.views ++ [⟨mkId st.counter, s.name⟩],
              counter := st.counter + 1 } := by
        simp [createS, hnf]
      obtain ⟨ext, h1, _, _, _, _⟩ := upsertServer_ext idx rest ((createS st s.name).1)
      rw [h1, hcs]
      simp

theorem syncS_wf (st0 : ServerState) (d : List DataViewSpec) (hwf : WFState st0) :
    WFState (syncS st0 d).1 := by
  have h1 : (syncS st0 d).1
      = (deleteAllS (d.map DataViewSpec.name) (buildIndex (observe st0))
          (upsertAllS (buildIndex (observe st0)) 0 d st0 initLoopState).1 []).1 := rfl
  rw [h1, upsertAllS_fst]
  exact deleteAllS_wf _ _ _ _ (upsertServer_wf _ _ _ hwf)

theorem delList_eq (st0 : ServerState) (dn : List String)
    (hnd : (st0.views.map SView.name).Nodup) :
    (buildIndex (observe st0)).filterMap (delSelect dn)
      = st0.views.filterMap
          (fun v => if delCond dn v then some ⟨v.id, v.name⟩ else none) := by
  rw [buildIndex_observe hnd, List.filterMap_map]
  congr 1
  funext v
  simp only [Function.comp]
  exact delSelect_entryOf dn v

theorem mem_delList_id {st0 : ServerState} {dn : List String} {x : String} :
    (x ∈ (st0.views.filterMap
        (fun v => if delCond dn v then some ⟨v.id, v.name⟩ else none)).map
          DeletedEntry.id)
      ↔ ∃ w ∈ st0.views, delCond dn w = true ∧ w.id = x := by
  simp only [List.mem_map, List.mem_filterMap]
  constructor
  · rintro ⟨dentry, ⟨w, hw, hsel⟩, hid⟩
    by_cases hc : delCond dn w = true
    · simp only [hc, if_true, Option.some.injEq] at hsel
      refine ⟨w, hw, hc, ?_⟩
      rw [← hid, ← hsel]
    · simp only [Bool.not_eq_true] at hc
      simp [hc] at hsel
  · rintro ⟨w, hw, hc, hx⟩
    exact ⟨⟨w.id, w.name⟩, ⟨w, hw, by simp [hc]⟩, hx⟩

theorem syncS_state_views (st0 : ServerState) (d : List DataViewSpec)
    (hwf : WFState st0) :
    ∃ ext, (syncS st0 d).1.views
        = st0.views.filter (fun v => !delCond (d.map DataViewSpec.name) v) ++ ext
      ∧ (∀ v ∈ ext, v.name ∈ (d.filter
            (fun s => !skipCond (buildIndex (observe st0)) s)).map DataViewSpec.name)
      ∧ (∀ v ∈ ext, v.name ∉ st0.views.map SView.name)
      ∧ (∀ v ∈ ext, ∃ m, st0.counter ≤ m ∧ v.id = mkId m)
      ∧ (upsertServer (buildIndex (observe st0)) d st0).views = st0.views ++ ext := by
  obtain ⟨ext, h1, h2, h3, h4, _⟩ :=
    upsertServer_ext (buildIndex (observe st0)) d st0
  refine ⟨ext, ?_, h2, h3, h4, h1⟩
  have hsync1 : (syncS st0 d).1
      = (deleteAllS (d.map DataViewSpec.name) (buildIndex (observe st0))
          (upsertAllS (buildIndex (observe st0)) 0 d st0 initLoopState).1 []).1 := rfl
  rw [hsync1, deleteAllS_fst, upsertAllS_fst, h1, List.filter_append]
  rw [delList_eq st0 (d.map DataViewSpec.name) hwf.2.1]
  have hpart1 : st0.views.filter
        (fun v => !((st0.views.filterMap
            (fun v => if delCond (d.map DataViewSpec.name) v
                      then some ⟨v.id, v.name⟩ else none)).map
              DeletedEntry.id).contains v.id)
      = st0.views.filter (fun v => !delCond (d.map DataViewSpec.name) v) := by
    apply List.filter_congr
    intro v hv
    congr 1
    rw [Bool.eq_iff_iff]
    constructor
    · intro hcontains
      have hmem := mem_delList_id.1 (by simpa using hcontains)
      obtain ⟨w, hw, hc, hid⟩ := hmem
      have : w = v := List.inj_on_of_nodup_map hwf.2.2.1 hw hv hid
      rw [← this]
      exact hc
    · intro hc
      have : v.id ∈ (st0.views.filterMap
          (fun v => if delCond (d.map DataViewSpec.name) v
                    then some ⟨v.id, v.name⟩ else none)).map DeletedEntry.id :=
        mem_delList_id.2 ⟨v, hv, hc, rfl⟩
      simpa using this
  have hpart2 : ext.filter
        (fun v => !((st0.views.filterMap
            (fun v => if delCond (d.map DataViewSpec.name) v
                      then some ⟨v.id, v.name⟩ else none)).map
              DeletedEntry.id).contains v.id)
      = ext := by
    apply List.filter_eq_self.2
    intro v hv
    obtain ⟨m, hm, hid⟩ := h4 v hv
    simp only [Bool.not_eq_eq_eq_not, Bool.not_true]
    rw [← Bool.not_eq_true]
    intro hcontains
    obtain ⟨w, hw, _, hwid⟩ := mem_delList_id.1 (by simpa using hcontains)
    rw [hid] at hwid
    exact hwf.2.2.2 m hm w hw hwid
  rw [hpart1, hpart2]

theorem skipCond_stable (st0 : ServerState) (d : List DataViewSpec)
    (hwf : WFState st0) (hnd : (d.map DataViewSpec.name).Nodup) :
    ∀ spec ∈ d, skipCond (buildIndex (observe (syncS st0 d).1)) spec
      = skipCond (buildIndex (observe st0)) spec := by
  obtain ⟨ext, hv2, hextn, hextnot, hextid, _⟩ := syncS_state_views st0 d hwf
  intro spec hspec
  by_cases htt : optTruthy spec.title
  · simp [skipCond, htt]
  · have htt' : optTruthy spec.title = false := by simpa using htt
    simp only [skipCond, htt', Bool.not_false, Bool.true_and]
    congr 1
    rw [buildIndex_observe (syncS_wf st0 d hwf).2.1, buildIndex_observe hwf.2.1,
      indexHasName_map, indexHasName_map]
    rw [Bool.eq_iff_iff]
    simp only [List.any_eq_true, beq_iff_eq]
    constructor
    · rintro ⟨v, hv, hvn⟩
      rw [hv2] at hv
      rcases List.mem_append.1 hv with hv | hv
      · exact ⟨v, (List.mem_filter.1 hv).1, hvn⟩
      · have hn := hextn v hv
        obtain ⟨spec2, hspec2, hname⟩ := List.mem_map.1 hn
        have hspec2mem : spec2 ∈ d := (List.mem_filter.1 hspec2).1
        have hspec2pred := (List.mem_filter.1 hspec2).2
        have heq : spec2 = spec :=
          List.inj_on_of_nodup_map hnd hspec2mem hspec (by rw [hname, hvn])
        subst heq
        have hhas : indexHasName (buildIndex (observe st0)) spec2.name = true := by
          simp only [skipCond, htt', Bool.not_false, Bool.true_and,
            Bool.not_eq_eq_eq_not, Bool.not_true] at hspec2pred
          simpa using hspec2pred
        rw [buildIndex_observe hwf.2.1, indexHasName_map] at hhas
        simpa using hhas
    · rintro ⟨v, hv, hvn⟩
      refine ⟨v, ?_, hvn⟩
      rw [hv2]
      refine List.mem_append.2 (Or.inl (List.mem_filter.2 ⟨hv, ?_⟩))
      have hmemdn : v.name ∈ d.map DataViewSpec.name := by
        rw [hvn]
        exact List.mem_map.2 ⟨spec, hspec, rfl⟩
      have hcont : (d.map DataViewSpec.name).contains v.name = true := by
        simpa using hmemdn
      simp only [delCond, Bool.not_and, Bool.or_eq_true, Bool.not_eq_eq_eq_not,
        Bool.not_true, Bool.not_not]
      simp [hcont]
      exact Or.inl (Or.inr ⟨spec, hspec, hvn.symm⟩)

/-! ## Claim C9: idempotence -/

/-- C9 (counterexample): desired list `[x (no title), y (titled), x (titled)]`
against an empty remote.  Run 1 skips the first `x` (no title, never seen),
creates `y` (default candidate `"i"`), then creates `x`.  Run 2 no longer
skips the first `x` (it now exists remotely), so the candidate becomes
`x`'s id `"ix"`: the second run has empty `deleted` and `created`, but the
default candidate differs, refuting "an identical default candidate". -/
theorem sync_idempotence_counterexample :
    (syncS (syncS ⟨[], 0⟩ desiredDup).1 desiredDup).2.deleted = []
    ∧ (syncS (syncS ⟨[], 0⟩ desiredDup).1 desiredDup).2.created = []
    ∧ candidateS ⟨[], 0⟩ desiredDup = some "i"
    ∧ candidateS (syncS ⟨[], 0⟩ desiredDup).1 desiredDup = some "ix"
    ∧ ("i" : String) ≠ "ix" :=
  ⟨by decide, by decide, by decide, by decide, by decide⟩

/-- C9 (amended): for a well-formed remote collection and a desired list
with no duplicate names, running `sync(desired)` twice with no external
changes yields an empty `deleted` and `created` list on the second run
(all non-skipped items resolve to `updated`), and an identical default
candidate.  (Without the no-duplicate-names hypothesis the candidate can
change, see the counterexample.) -/
theorem sync_idempotent_nodup (st0 : ServerState) (desired : List DataViewSpec)
    (hwf : WFState st0) (hnd : (desired.map DataViewSpec.name).Nodup) :
    (syncS (syncS st0 desired).1 desired).2.deleted = []
    ∧ (syncS (syncS st0 desired).1 desired).2.created = []
    ∧ candidateS (syncS st0 desired).1 desired = candidateS st0 desired := by
  have hwf2 : WFState (syncS st0 desired).1 := syncS_wf st0 desired hwf
  obtain ⟨ext, hv2, hextn, hextnot, hextid, hupv⟩ := syncS_state_views st0 desired hwf
  have hS2nodel : ∀ v ∈ (syncS st0 desired).1.views,
      delCond (desired.map DataViewSpec.name) v = false := by
    intro v hv
    rw [hv2] at hv
    rcases List.mem_append.1 hv with hv | hv
    · have := (List.mem_filter.1 hv).2
      simpa using this
    · have hn := hextn v hv
      obtain ⟨spec2, hspec2, hname⟩ := List.mem_map.1 hn
      have hspec2mem : spec2 ∈ desired := (List.mem_filter.1 hspec2).1
      have hcont : (desired.map DataViewSpec.name).contains v.name = true := by
        have : v.name ∈ desired.map DataViewSpec.name := by
          rw [← hname]
          exact List.mem_map.2 ⟨spec2, hspec2mem, rfl⟩
        simpa using this
      simp [delCond, hcont]
      intro _ hall
      exact absurd hname (hall spec2 hspec2mem)
  refine ⟨?_, ?_, ?_⟩
  · have h1 : (syncS (syncS st0 desired).1 desired).2.deleted
        = (deleteAllS (desired.map DataViewSpec.name)
            (buildIndex (observe (syncS st0 desired).1))
            (upsertAllS (buildIndex (observe (syncS st0 desired).1)) 0 desired
              (syncS st0 desired).1 initLoopState).1 []).2 := rfl
    rw [h1, deleteAllS_snd]
    rw [List.nil_append]
    rw [delList_eq _ _ hwf2.2.1]
    refine List.filterMap_eq_nil_iff.2 ?_
    intro v hv
    simp [hS2nodel v hv]
  · have h2 : (syncS (syncS st0 desired).1 desired).2.created
        = (upsertAllS (buildIndex (observe (syncS st0 desired).1)) 0 desired
            (syncS st0 desired).1 initLoopState).2.created := rfl
    rw [h2, upsertAllS_created _ _ _ _ _ hwf2.1]
    rfl
  · rw [candidateS_eq_expected, candidateS_eq_expected]
    rw [expectedCandidateS_find _ _ _ hwf2.1, expectedCandidateS_find _ _ _ hwf.1]
    have hfind : desired.find?
          (fun s => !skipCond (buildIndex (observe (syncS st0 desired).1)) s)
        = desired.find? (fun s => !skipCond (buildIndex (observe st0)) s) :=
      findq_congr desired
        (fun s hs => by rw [skipCond_stable st0 desired hwf hnd s hs])
    rw [hfind]
    cases hf : desired.find? (fun s => !skipCond (buildIndex (observe st0)) s) with
    | none => rfl
    | some spec =>
      simp only []
      have hspecmem : spec ∈ desired := List.mem_of_find?_eq_some hf
      cases hf0 : st0.views.find? (fun v => v.name == spec.name) with
      | some v0 =>
        have hv0mem : v0 ∈ st0.views := List.mem_of_find?_eq_some hf0
        have hv0name : v0.name = spec.name := by simpa using List.find?_some hf0
        have hv0S2 : v0 ∈ (syncS st0 desired).1.views := by
          rw [hv2]
          refine List.mem_append.2 (Or.inl (List.mem_filter.2 ⟨hv0mem, ?_⟩))
          have hcont : (desired.map DataViewSpec.name).contains v0.name = true := by
            have : v0.name ∈ desired.map DataViewSpec.name := by
              rw [hv0name]
              exact List.mem_map.2 ⟨spec, hspecmem, rfl⟩
            simpa using this
          simp [delCond, hcont]
          exact Or.inl (Or.inr ⟨spec, hspecmem, hv0name.symm⟩)
        cases hf2 : (syncS st0 desired).1.views.find? (fun v => v.name == spec.name) with
        | none =>
          exact absurd (List.find?_eq_none.1 hf2 v0 hv0S2) (by simp [hv0name])
        | some w =>
          have hwmem : w ∈ (syncS st0 desired).1.views := List.mem_of_find?_eq_some hf2
          have hwname : w.name = spec.name := by simpa using List.find?_some hf2
          have hwv0 : w = v0 :=
            List.inj_on_of_nodup_map hwf2.2.1 hwmem hv0S2 (by rw [hwname, hv0name])
          simp [createS, hf0, hf2, hwv0]
      | none =>
        have hnew : (⟨mkId st0.counter, spec.name⟩ : SView)
            ∈ (upsertServer (buildIndex (observe st0)) desired st0).views :=
          upsertServer_first_new _ desired st0 spec hf hf0
        rw [hupv] at hnew
        have hnewext : (⟨mkId st0.counter, spec.name⟩ : SView) ∈ ext := by
          rcases List.mem_append.1 hnew with h | h
          · exact absurd rfl (hwf.2.2.2 st0.counter le_rfl _ h)
          · exact h
        have hnewS2 : (⟨mkId st0.counter, spec.name⟩ : SView)
            ∈ (syncS st0 desired).1.views := by
          rw [hv2]
          exact List.mem_append.2 (Or.inr hnewext)
        cases hf2 : (syncS st0 desired).1.views.find? (fun v => v.name == spec.name) with
        | none =>
          exact absurd (List.find?_eq_none.1 hf2 _ hnewS2) (by simp)
        | some w =>
          have hwmem := List.mem_of_find?_eq_some hf2
          have hwname : w.name = spec.name := by simpa using List.find?_some hf2
          have hwv : w = ⟨mkId st0.counter, spec.name⟩ :=
            List.inj_on_of_nodup_map hwf2.2.1 hwmem hnewS2 (by rw [hwname])
          simp [createS, hf0, hf2, hwv]

/-- C9 (witness): the amended idempotence applied to the empty well-formed
remote and the singleton desired list `[specA]`. -/
theorem sync_idempotent_nodup_witness :
    WFState ⟨[], 0⟩
    ∧ ([specA].map DataViewSpec.name).Nodup
    ∧ ((syncS (syncS ⟨[], 0⟩ [specA]).1 [specA]).2.deleted = []
       ∧ (syncS (syncS ⟨[], 0⟩ [specA]).1 [specA]).2.created = []
       ∧ candidateS (syncS ⟨[], 0⟩ [specA]).1 [specA] = candidateS ⟨[], 0⟩ [specA]) := by
  have hwf : WFState ⟨[], 0⟩ := by
    unfold WFState
    refine ⟨?_, ?_, ?_, ?_⟩ <;> simp
  exact ⟨hwf, by decide, sync_idempotent_nodup ⟨[], 0⟩ [specA] hwf (by decide)⟩
